import Mathlib

/-!
Verification development for the Reapprop_Automation repository.

The Python sources are shallowly embedded: each scanning loop becomes a fold
over an explicit state, each concrete regular expression becomes a
character-list matcher (the patterns involved are deterministic: greedy
matching never needs backtracking to decide a match, as argued at each
matcher), and Python floats on the decimal strings involved are modelled
as rationals.
-/

namespace Reapprop

/-- Python whitespace as used by str.strip and the regex class backslash-s
(ASCII fragment; the sources only ever meet ASCII whitespace). -/
def isPySpace (c : Char) : Bool :=
  c = ' ' || c = '\t' || c = '\n' || c = '\r' || c = '\x0b' || c = '\x0c'

def isPyDigit (c : Char) : Bool :=
  '0' ≤ c && c ≤ '9'

/-- Python str.strip() on a character list. -/
def pyStripChars (l : List Char) : List Char :=
  ((l.dropWhile isPySpace).reverse.dropWhile isPySpace).reverse

/-- Python str.strip(). -/
def pyStrip (s : String) : String :=
  ⟨pyStripChars s.data⟩

/-- Python str.split(backslash-n): always at least one piece, keeps empty pieces. -/
def pySplitNl : List Char → List (List Char)
  | [] => [[]]
  | c :: rest =>
    if c = '\n' then [] :: pySplitNl rest
    else
      match pySplitNl rest with
      | [] => [[c]]
      | h :: t => (c :: h) :: t

def pySplitNlStr (s : String) : List String :=
  (pySplitNl s.data).map (fun l => ⟨l⟩)

/-- Python str.splitlines() restricted to the newline character (the only line
boundary occurring in the extracted page text): like split, but a trailing
newline yields no trailing empty line and the empty string yields no lines. -/
def pySplitlines (l : List Char) : List (List Char) :=
  match l with
  | [] => []
  | _ =>
    if l.getLast? = some '\n' then (pySplitNl l).dropLast
    else pySplitNl l

def pySplitlinesStr (s : String) : List String :=
  (pySplitlines s.data).map (fun l => ⟨l⟩)

/-- Python "backslash-n".join on character lists. -/
def joinNl : List (List Char) → List Char
  | [] => []
  | [c] => c
  | c :: rest => c ++ '\n' :: joinNl rest

def joinNlStr (ls : List String) : String :=
  ⟨joinNl (ls.map String.data)⟩

/-- Last element of the split of a string at newlines. -/
def lastLineStr (s : String) : String :=
  ⟨(pySplitNl s.data).getLastD []⟩

/-! ### Character-list matchers for the concrete regular expressions

Each matcher fixes a position (the front of the list) and returns the number
of characters the greedy parse consumes, or none.  For every pattern below the
greedy parse is equivalent to the backtracking regex semantics: whenever a
quantifier could give characters back, the following literal can never match
the returned character (digits are never a comma, a dot, a closing parenthesis
or whitespace, and so on), so backtracking never rescues a failed greedy
parse.  Search functions then try every start position from the left, which is
the leftmost-match rule of re.search / re.finditer. -/

/-- Case-insensitive literal: the pattern characters, compared via toLower. -/
def matchesCI : List Char → List Char → Bool
  | [], _ => true
  | _ :: _, [] => false
  | p :: ps, c :: cs => (p.toLower = c.toLower) && matchesCI ps cs

def litCI (pat l : List Char) : Option Nat :=
  if matchesCI pat l then some pat.length else none

/-- Case-sensitive literal. -/
def litCS (pat l : List Char) : Option Nat :=
  if pat.isPrefixOf l then some pat.length else none

def charLit (c : Char) (l : List Char) : Option Nat :=
  match l with
  | d :: _ => if d = c then some 1 else none
  | [] => none

/-- One or more whitespace characters, greedy. -/
def wsPlusLen (l : List Char) : Option Nat :=
  let n := (l.takeWhile isPySpace).length
  if 1 ≤ n then some n else none

/-- Zero or one whitespace character, greedy. -/
def wsOptLen (l : List Char) : Nat :=
  match l with
  | c :: _ => if isPySpace c then 1 else 0
  | [] => 0

/-- Exactly k digits. -/
def digitsExact (k : Nat) (l : List Char) : Option Nat :=
  if (l.take k).length = k && (l.take k).all isPyDigit then some k else none

/-- One or more digits, greedy. -/
def digitsPlusLen (l : List Char) : Option Nat :=
  let n := (l.takeWhile isPyDigit).length
  if 1 ≤ n then some n else none

/-- One to three digits, greedy. -/
def digits1to3 (l : List Char) : Option Nat :=
  match l with
  | a :: rest =>
    if isPyDigit a then
      match rest with
      | b :: rest2 =>
        if isPyDigit b then
          match rest2 with
          | c :: _ => if isPyDigit c then some 3 else some 2
          | [] => some 2
        else some 1
      | [] => some 1
    else none
  | [] => none

/-- Zero or more groups of a comma followed by exactly three digits, greedy. -/
def commaGroupsLen : List Char → Nat
  | ',' :: a :: b :: c :: rest =>
    if isPyDigit a && isPyDigit b && isPyDigit c then 4 + commaGroupsLen rest
    else 0
  | _ => 0

/-- Optional dot followed by exactly two digits. -/
def fracOptLen : List Char → Nat
  | '.' :: a :: b :: _ => if isPyDigit a && isPyDigit b then 3 else 0
  | _ => 0

/-- The dollar-figure body shared by the patterns:
one to three digits, then comma groups, then an optional cent part. -/
def numLen (l : List Char) : Option Nat := do
  let d ← digits1to3 l
  let cg := commaGroupsLen (l.drop d)
  let f := fracOptLen (l.drop (d + cg))
  pure (d + cg + f)

/-- Three or more dots, greedy. -/
def dotsAtLeast3 (l : List Char) : Option Nat :=
  let n := (l.takeWhile (fun c => c = '.')).length
  if 3 ≤ n then some n else none

/-! #### Pattern of process_appropriations (Approp Text Blocks.py line 90):
a parenthesized five-digit code, a dotted leader, a dollar amount.  The match
returns (group 1, length of group 0). -/

def appropMatchAt (l : List Char) : Option (List Char × Nat) := do
  let _ ← charLit '(' l
  let _ ← digitsExact 5 (l.drop 1)
  let _ ← charLit ')' (l.drop 6)
  let a ← wsPlusLen (l.drop 7)
  let b ← dotsAtLeast3 (l.drop (7 + a))
  let c ← wsPlusLen (l.drop (7 + a + b))
  let _ ← charLit '$' (l.drop (7 + a + b + c))
  let d ← numLen (l.drop (8 + a + b + c))
  pure ((l.drop 1).take 5, 8 + a + b + c + d)

/-- Leftmost search; returns (group 1, group 0). -/
def appropSearchChars : List Char → Option (List Char × List Char)
  | [] => none
  | l@(_ :: rest) =>
    match appropMatchAt l with
    | some (g, n) => some (g, l.take n)
    | none => appropSearchChars rest

def appropSearchStr (s : String) : Option (String × String) :=
  (appropSearchChars s.data).map (fun p => (⟨p.1⟩, ⟨p.2⟩))

/-! #### Fund-type pattern (Approp Text Blocks.py line 91): four alternatives,
case-insensitive; group 1 is the matched text in its original casing. -/

def fundMatchAt (l : List Char) : Option Nat :=
  match litCI ("General Fund".data) l with
  | some n => some n
  | none =>
    match litCI ("Special Revenue Funds - Federal".data) l with
    | some n => some n
    | none =>
      match litCI ("Special Revenue Funds - Other".data) l with
      | some n => some n
      | none => litCI ("Fiduciary Funds".data) l

def fundSearchChars : List Char → Option (List Char)
  | [] => none
  | l@(_ :: rest) =>
    match fundMatchAt l with
    | some n => some (l.take n)
    | none => fundSearchChars rest

def fundSearchStr (s : String) : Option String :=
  (fundSearchChars s.data).map (fun l => ⟨l⟩)

/-! #### process_reappropriations pattern (Approp Text Blocks.py line 144):
a parenthesized re-dollar marker, case-sensitive, boolean search only. -/

def reParenMatchAt (l : List Char) : Option Nat := do
  let _ ← litCS ("(re.".data) l
  let w := wsOptLen (l.drop 4)
  let _ ← charLit '$' (l.drop (4 + w))
  let n ← numLen (l.drop (5 + w))
  let _ ← charLit ')' (l.drop (5 + w + n))
  pure (6 + w + n)

def reParenFoundChars : List Char → Bool
  | [] => false
  | l@(_ :: rest) =>
    match reParenMatchAt l with
    | some _ => true
    | none => reParenFoundChars rest

def reParenFound (s : String) : Bool :=
  reParenFoundChars s.data

/-! #### Bare re-dollar pattern (Reappropriations.py line 34, case-sensitive;
also reapprop pattern 1 of final_budget_comparison.py line 93, there applied
case-insensitively with the amount as group 1). -/

def reDollarMatchAt (ci : Bool) (l : List Char) : Option (List Char × Nat) := do
  let _ ← (if ci then litCI else litCS) ("re.".data) l
  let w := wsOptLen (l.drop 3)
  let _ ← charLit '$' (l.drop (3 + w))
  let n ← numLen (l.drop (4 + w))
  pure ((l.drop (4 + w)).take n, 4 + w + n)

def reDollarSearchChars (ci : Bool) : List Char → Option (List Char × Nat)
  | [] => none
  | l@(_ :: rest) =>
    match reDollarMatchAt ci l with
    | some r => some r
    | none => reDollarSearchChars ci rest

/-- Reappropriations.py line 34: case-sensitive boolean search. -/
def reDollarFound (s : String) : Bool :=
  (reDollarSearchChars false s.data).isSome

/-- final_budget_comparison.py line 93 with re.IGNORECASE: group 1. -/
def reDollarGroupCI (s : String) : Option String :=
  (reDollarSearchChars true s.data).map (fun p => ⟨p.1⟩)

/-! #### Chapter-citation pattern (Reappropriations.py line 23),
case-insensitive; group 1 is the whole citation in original casing. -/

/-- Sequence sub-matchers: each consumes from where the previous stopped;
the total consumed length is returned. -/
def seqAll : List (List Char → Option Nat) → List Char → Option Nat
  | [], _ => some 0
  | p :: ps, l =>
    match p l with
    | none => none
    | some n =>
      match seqAll ps (l.drop n) with
      | none => none
      | some m => some (n + m)

/-- An optional comma: always succeeds, greedily consuming a comma if present. -/
def optCommaLen (l : List Char) : Option Nat :=
  match charLit ',' l with
  | some _ => some 1
  | none => some 0

def chapterMatchAt (l : List Char) : Option Nat :=
  seqAll
    [litCI ("by".data), wsPlusLen,
     litCI ("chapter".data), wsPlusLen,
     digitsPlusLen, charLit ',', wsPlusLen,
     litCI ("section".data), wsPlusLen,
     digitsPlusLen, optCommaLen, wsPlusLen,
     litCI ("of".data), wsPlusLen,
     litCI ("the".data), wsPlusLen,
     litCI ("laws".data), wsPlusLen,
     litCI ("of".data), wsPlusLen,
     digitsExact 4] l

def chapterSearchChars : List Char → Option (List Char)
  | [] => none
  | l@(_ :: rest) =>
    match chapterMatchAt l with
    | some n => some (l.take n)
    | none => chapterSearchChars rest

def chapterSearchStr (s : String) : Option String :=
  (chapterSearchChars s.data).map (fun l => ⟨l⟩)

/-! #### Section-splitter header patterns (Approp Text Blocks.py lines 28-29).
The budget-type pattern is anchored at the start of the line; group 1 keeps
the original casing.  The fiscal-year pattern is an unanchored search. -/

def headerMatchStr (s : String) : Option String :=
  match litCI ("AID TO LOCALITIES".data) s.data with
  | some n => some ⟨s.data.take n⟩
  | none =>
    match litCI ("STATE OPERATIONS".data) s.data with
    | some n => some ⟨s.data.take n⟩
    | none =>
      match litCI ("CAPITAL PROJECTS".data) s.data with
      | some n => some ⟨s.data.take n⟩
      | none => none

def fiscalMatchAt (l : List Char) : Option Nat := do
  let _ ← digitsExact 4 l
  let _ ← charLit '-' (l.drop 4)
  let _ ← digitsExact 2 (l.drop 5)
  pure 7

def fiscalSearchChars : List Char → Option (List Char)
  | [] => none
  | l@(_ :: rest) =>
    match fiscalMatchAt l with
    | some n => some (l.take n)
    | none => fiscalSearchChars rest

def fiscalSearchStr (s : String) : Option String :=
  (fiscalSearchChars s.data).map (fun l => ⟨l⟩)

/-! ### process_appropriations (Approp Text Blocks.py lines 86-137) -/

structure AppropRecord where
  fundType : String
  appropriationCode : String
  appropriation : String
  dollarAmount : String
  confidenceFlag : String
deriving Repr, DecidableEq

/-- Loop state: the accumulating line block, the sticky fund type, the
records emitted so far. -/
structure ApState where
  chunk : List String
  fundType : String
  records : List AppropRecord
deriving Repr, DecidableEq

/-- One iteration of the scan: strip the line, update the sticky fund type if
the fund pattern fires, then on an appropriation match close the previous
block (if non-empty) into a High Confidence record carrying the new match's
code and amount and restart the block at this line; otherwise append the line
to the open block. -/
def apStep (st : ApState) (rawLine : String) : ApState :=
  let line := pyStrip rawLine
  let ft :=
    match fundSearchStr line with
    | some f => f
    | none => st.fundType
  match appropSearchStr line with
  | some (code, whole) =>
    let recs :=
      if st.chunk.isEmpty then st.records
      else st.records ++
        [⟨ft, code, joinNlStr st.chunk, whole, "High Confidence"⟩]
    ⟨[line], ft, recs⟩
  | none => ⟨st.chunk ++ [line], ft, st.records⟩

def processAppropriations (content : String) : List AppropRecord :=
  let fin := (pySplitNlStr content).foldl apStep ⟨[], "Unknown", []⟩
  if fin.chunk.isEmpty then fin.records
  else fin.records ++
    [⟨fin.fundType, "N/A", joinNlStr fin.chunk, "N/A", "Needs Review"⟩]

/-! ### process_reappropriations (Approp Text Blocks.py lines 140-166).
Each output record is a single-key row; it is modelled by its
Reappropriation text. -/

structure RpState where
  chunk : List String
  records : List String
deriving Repr, DecidableEq

def rpStep (st : RpState) (rawLine : String) : RpState :=
  let line := pyStrip rawLine
  if reParenFound line then
    let recs :=
      if st.chunk.isEmpty then st.records
      else st.records ++ [joinNlStr st.chunk]
    ⟨[line], recs⟩
  else ⟨st.chunk ++ [line], st.records⟩

def processReappropriations (content : String) : List String :=
  let fin := (pySplitNlStr content).foldl rpStep ⟨[], []⟩
  if fin.chunk.isEmpty then fin.records
  else fin.records ++ [joinNlStr fin.chunk]

/-! ### split_budget_into_sections (Approp Text Blocks.py lines 18-83).
A page is modelled by its extracted text; pdfplumber returning None is the
same falsy skip as returning the empty string, so both are the empty
string here. -/

structure BudgetSection where
  agency : Option String
  budgetType : Option String
  fiscalYear : Option String
  content : String
  pageStart : Int
  pageEnd : Int
deriving Repr, DecidableEq

structure SplitState where
  sections : List BudgetSection
  currentSection : List String
  curAgency : Option String
  curBudgetType : Option String
  curFiscalYear : Option String
deriving Repr, DecidableEq

/-- budget_type: the header match on the budget-info line, else the running
value. -/
def headerOr (budgetInfo : String) (cur : Option String) : Option String :=
  match headerMatchStr budgetInfo with
  | some s => some s
  | none => cur

/-- fiscal_year: the fiscal-year match on the budget-info line, else the
running value. -/
def fiscalOr (budgetInfo : String) (cur : Option String) : Option String :=
  match fiscalSearchStr budgetInfo with
  | some s => some s
  | none => cur

/-- One page of the splitter loop (pageNum is the 0-based enumerate index):
skip falsy text and pages under three lines; otherwise read agency from line
index 1 and budget info from line index 2, carry budget type and fiscal year
forward when unmatched, and on an agency or budget-type change flush the
accumulated section before updating the tracking values; finally append the
page text to the open section. -/
def stepPage (pageNum : Nat) (text : String) (st : SplitState) : SplitState :=
  if text = "" then st
  else
    let lines := pySplitlinesStr text
    if lines.length < 3 then st
    else
      let agency := pyStrip (lines.getD 1 "")
      let budgetInfo := pyStrip (lines.getD 2 "")
      let budgetType := headerOr budgetInfo st.curBudgetType
      let fiscalYear := fiscalOr budgetInfo st.curFiscalYear
      let st1 :=
        if some agency ≠ st.curAgency ∨ budgetType ≠ st.curBudgetType then
          let secs :=
            if st.currentSection.isEmpty then st.sections
            else st.sections ++
              [⟨st.curAgency, st.curBudgetType, st.curFiscalYear,
                joinNlStr st.currentSection,
                (pageNum : Int) - st.currentSection.length + 1,
                (pageNum : Int)⟩]
          ⟨secs, [], some agency, budgetType, fiscalYear⟩
        else st
      { st1 with currentSection := st1.currentSection ++ [text] }

def splitFoldAux : Nat → List String → SplitState → SplitState
  | _, [], st => st
  | i, p :: rest, st => splitFoldAux (i + 1) rest (stepPage i p st)

def splitBudgetIntoSections (pages : List String) : List BudgetSection :=
  let st := splitFoldAux 0 pages ⟨[], [], none, none, none⟩
  if st.currentSection.isEmpty then st.sections
  else st.sections ++
    [⟨st.curAgency, st.curBudgetType, st.curFiscalYear,
      joinNlStr st.currentSection,
      (pages.length : Int) - st.currentSection.length + 1,
      (pages.length : Int)⟩]

/-! ### final_budget_comparison.py: records, amount parsing, reconciler -/

/-- One extracted budget line (the record dict built at lines 77-87 and
106-116).  Amounts are Python floats; on the comma-stripped decimal strings
produced by the regexes they are exact decimals, modelled as rationals. -/
structure BudgetRecord where
  type : String
  agency : String
  budgetType : String
  appropriationId : String
  amount : Rat
  text : String
  page : Nat
  source : String
  year : String
deriving Repr, DecidableEq

structure Discrepancy where
  agency : String
  budgetType : String
  appropriationId : String
  enactedAmount : Rat
  enactedType : String
  text : String
  page : Nat
  description : String
  year : String
deriving Repr, DecidableEq

/-- Model of Python float() restricted to decimal literals: optional
whitespace and sign, an integer part and/or a fractional part, an optional
exponent; anything else (letters, stray symbols, lone dots) raises
ValueError, modelled as none.  The inf/nan words and digit underscores that
float() also accepts cannot reach this code (the regexes only pass digit,
comma and dot strings) and are left out of the model. -/
def digitsVal (l : List Char) : Nat :=
  l.foldl (fun a c => a * 10 + (c.toNat - 48)) 0

/-- The exponent suffix: nothing means exponent 0; otherwise e or E, an
optional sign and digits reaching the end of the string. -/
def pyFloatExpVal (l : List Char) : Option Int :=
  match l with
  | [] => some 0
  | e :: rest =>
    if e = 'e' ∨ e = 'E' then
      let sr : Int × List Char :=
        match rest with
        | '+' :: r => (1, r)
        | '-' :: r => (-1, r)
        | r => (1, r)
      let ds := sr.2.takeWhile isPyDigit
      if ds.isEmpty ∨ sr.2.drop ds.length ≠ [] then none
      else some (sr.1 * (digitsVal ds : Int))
    else none

/-- Mantissa (integer and/or fractional digits) followed by an optional
exponent; the exact value is assembled as a rational. -/
def pyFloatCore (l : List Char) : Option Rat :=
  let ip := l.takeWhile isPyDigit
  let rest := l.drop ip.length
  let parts : Option (Nat × Nat × List Char) :=
    match rest with
    | '.' :: rest2 =>
      let fp := rest2.takeWhile isPyDigit
      if ip.isEmpty && fp.isEmpty then none
      else some (digitsVal (ip ++ fp), fp.length, rest2.drop fp.length)
    | _ => if ip.isEmpty then none else some (digitsVal ip, 0, rest)
  match parts with
  | none => none
  | some (m, k, rest3) =>
    match pyFloatExpVal rest3 with
    | none => none
    | some e =>
      if 0 ≤ e then
        some (mkRat ((m : Int) * (10 : Int) ^ e.toNat) ((10 : Nat) ^ k))
      else some (mkRat (m : Int) ((10 : Nat) ^ k * (10 : Nat) ^ (-e).toNat))

def pyFloat (s : String) : Option Rat :=
  match pyStripChars s.data with
  | '+' :: rest => pyFloatCore rest
  | '-' :: rest => (pyFloatCore rest).map (fun q => -q)
  | l => pyFloatCore l

/-- Python str.replace with a comma and the empty string: drop every comma. -/
def pyRemoveCommas (s : String) : String :=
  ⟨s.data.filter (fun c => c ≠ ',')⟩

/-- Per-match appropriation handling (final_budget_comparison.py lines
72-89): strip commas from the matched amount group, convert with float() and
append an appropriation record; a ValueError skips the match, leaving the
record list as it was. -/
def handleAppropMatch (records : List BudgetRecord)
    (agency budgetType appropId matchAmount text : String) (page : Nat)
    (source year : String) : List BudgetRecord :=
  match pyFloat (pyRemoveCommas matchAmount) with
  | some amount =>
    records ++ [⟨"appropriation", agency, budgetType, appropId, amount,
      text, page, source, year⟩]
  | none => records

/-- Per-match reappropriation handling (final_budget_comparison.py lines
100-118): same skip-on-ValueError shape, with the id recovered from the line
(passed in here) and type reappropriation. -/
def handleReappropMatch (records : List BudgetRecord)
    (agency budgetType appropId matchAmount text : String) (page : Nat)
    (source year : String) : List BudgetRecord :=
  match pyFloat (pyRemoveCommas matchAmount) with
  | some amount =>
    records ++ [⟨"reappropriation", agency, budgetType, appropId, amount,
      text, page, source, year⟩]
  | none => records

/-- The (agency, appropriation_id) keys of the executive reappropriation
rows (lines 213-217).  The Python set is modelled by the key list; only
membership is ever used, so deduplication is irrelevant. -/
def executiveReappropKeys (executive : List BudgetRecord) :
    List (String × String) :=
  (executive.filter (fun r => r.type = "reappropriation")).map
    (fun r => (r.agency, r.appropriationId))

/-- The discrepancy built from an enacted row (lines 229-239). -/
def mkDiscrepancy (r : BudgetRecord) : Discrepancy :=
  ⟨r.agency, r.budgetType, r.appropriationId, r.amount, r.type, r.text,
    r.page,
    "Enacted " ++ r.type ++
      " should appear as reappropriation in executive budget",
    r.year⟩

/-- _find_discrepancies (lines 208-242): walk the enacted rows in order,
skip id N/A, and append a discrepancy whenever the (agency, id) key is
absent from the executive reappropriation keys. -/
def findDiscrepancies (enacted executive : List BudgetRecord) :
    List Discrepancy :=
  enacted.foldl
    (fun acc r =>
      if r.appropriationId = "N/A" then acc
      else if (r.agency, r.appropriationId) ∈ executiveReappropKeys executive
        then acc
      else acc ++ [mkDiscrepancy r])
    []

/-- The BudgetAnalyzer instance state.  _find_discrepancies reads only its
two arguments and writes nothing to self, so the method threads the state
through unchanged. -/
structure AnalyzerState where
  enactedData : List BudgetRecord
  executiveData : List BudgetRecord
deriving Repr, DecidableEq

def findDiscrepanciesRun (st : AnalyzerState)
    (enacted executive : List BudgetRecord) :
    AnalyzerState × List Discrepancy :=
  (st, findDiscrepancies enacted executive)

/-! ### extract_reappropriation_chunks (Reappropriations.py lines 5-44).
The function takes the flattened stream of extracted page lines; each output
record is a single-key row, modelled by its Reappropriation text. -/

structure ChunkState where
  records : List String
  currentChunk : List String
  capturing : Bool
  chapterHeader : String
deriving Repr, DecidableEq

/-- One line of the scan: a chapter citation restarts the chunk at this line
and starts capturing; while capturing, the line is appended and a re-dollar
match closes the chunk (prefixing the stored citation if the chunk does not
already start with a By chapter line) and reseeds the next chunk with the
citation; before any citation the line is dropped. -/
def chunkStep (st : ChunkState) (rawLine : String) : ChunkState :=
  let line := pyStrip rawLine
  match chapterSearchStr line with
  | some grp => ⟨st.records, [line], true, grp⟩
  | none =>
    if st.capturing then
      let chunk := st.currentChunk ++ [line]
      if reDollarFound line then
        let chunk :=
          if ("By chapter".data).isPrefixOf ((chunk.getD 0 "").data) then chunk
          else st.chapterHeader :: chunk
        ⟨st.records ++ [joinNlStr chunk], [st.chapterHeader], true,
          st.chapterHeader⟩
      else ⟨st.records, chunk, true, st.chapterHeader⟩
    else st

def extractReappropriationChunks (allLines : List String) : List String :=
  (allLines.foldl chunkStep ⟨[], [], false, ""⟩).records

/-! ### Auxiliary definitions used by the statements and proofs -/

/-- Prepend characters onto the first piece of a split. -/
def prependHead (p : List Char) : List (List Char) → List (List Char)
  | [] => [p]
  | h :: t => (p ++ h) :: t

/-- The enacted record of the end-to-end scenario: one enacted appropriation
for DEPT A with id 12345 and amount 500000.0. -/
def enactedSample : BudgetRecord :=
  ⟨"appropriation", "DEPT A", "STATE OPERATIONS", "12345", 500000,
    "(12345) ... $500,000.00", 1, "enacted", "2024"⟩

/-- A matching executive reappropriation record with the same
(agency, appropriation_id) pair. -/
def execSample : BudgetRecord :=
  ⟨"reappropriation", "DEPT A", "STATE OPERATIONS", "12345", 500000,
    "xx (re. $500,000.00)", 2, "executive", "2026"⟩

/-- Invariant of the chunk scan: every record already emitted ends in a line
containing the re-dollar pattern, and neither the open chunk's lines nor the
stored chapter header contain a newline. -/
def chunkInv (st : ChunkState) : Prop :=
  (∀ r ∈ st.records, reDollarFound (lastLineStr r) = true) ∧
  (∀ x ∈ st.currentChunk, ('\n') ∉ x.data) ∧ ('\n') ∉ st.chapterHeader.data

/-! ## Theorems -/

/-- The fold of _find_discrepancies is the filterMap of its per-row test. -/
theorem findDiscrepancies_eq_filterMap (enacted executive : List BudgetRecord) :
    findDiscrepancies enacted executive =
      enacted.filterMap (fun r =>
        if r.appropriationId ≠ "N/A" ∧
            (r.agency, r.appropriationId) ∉ executiveReappropKeys executive
        then some (mkDiscrepancy r) else none) := by
  have key : ∀ (l : List BudgetRecord) (acc : List Discrepancy),
      l.foldl
        (fun acc r =>
          if r.appropriationId = "N/A" then acc
          else if (r.agency, r.appropriationId) ∈ executiveReappropKeys executive
            then acc
          else acc ++ [mkDiscrepancy r]) acc
      = acc ++ l.filterMap (fun r =>
          if r.appropriationId ≠ "N/A" ∧
              (r.agency, r.appropriationId) ∉ executiveReappropKeys executive
          then some (mkDiscrepancy r) else none) := by
    intro l
    induction l with
    | nil => intro acc; simp
    | cons r rest ih =>
      intro acc
      simp only [List.foldl_cons, List.filterMap_cons]
      by_cases h1 : r.appropriationId = "N/A"
      · simp [h1, ih]
      · by_cases h2 :
          (r.agency, r.appropriationId) ∈ executiveReappropKeys executive
        · simp [h1, h2, ih]
        · simp [h1, h2, ih]
  simpa using key enacted []

/-- Claim C1: _find_discrepancies emits exactly one discrepancy per enacted
record whose appropriation_id is not N/A and whose (agency, id) key is absent
from the executive reappropriation keys, carrying the enacted record's fields
plus the synthesized description; records with id N/A are skipped.  In
particular the sample enacted record against an empty executive collection
yields exactly its one discrepancy, and a matching executive reappropriation
record eliminates it. -/
theorem c1_find_discrepancies_characterization :
    (∀ enacted executive : List BudgetRecord,
      findDiscrepancies enacted executive =
        enacted.filterMap (fun r =>
          if r.appropriationId ≠ "N/A" ∧
              (r.agency, r.appropriationId) ∉ executiveReappropKeys executive
          then some (mkDiscrepancy r) else none)) ∧
    findDiscrepancies [enactedSample] [] = [mkDiscrepancy enactedSample] ∧
    (mkDiscrepancy enactedSample).appropriationId = "12345" ∧
    findDiscrepancies [enactedSample] [execSample] = [] := by
  refine ⟨findDiscrepancies_eq_filterMap, ?_, rfl, ?_⟩ <;> decide

/-- Claim C7: the reconciler is a pure function of its two inputs: run twice
in sequence from any analyzer state, the two discrepancy lists coincide and
the state is unchanged. -/
theorem c7_reconciler_idempotent :
    ∀ (st : AnalyzerState) (enacted executive : List BudgetRecord),
      (findDiscrepanciesRun st enacted executive).2 =
        (findDiscrepanciesRun (findDiscrepanciesRun st enacted executive).1
          enacted executive).2 ∧
      (findDiscrepanciesRun (findDiscrepanciesRun st enacted executive).1
        enacted executive).1 = st :=
  fun _ _ _ => ⟨rfl, rfl⟩

/-- Claim C8: the matched amount group of a well-formed dollar string such as
re. $1,000,000.00 normalizes, after comma removal, to the value 1000000; and
whenever float() fails on the comma-stripped amount string, both per-match
handlers leave the record list unchanged (the handlers are total: no
exception escapes the scan). -/
theorem c8_amount_handling :
    (reDollarGroupCI ("re. $1,000,000.00") = some ("1,000,000.00") ∧
      pyFloat (pyRemoveCommas ("1,000,000.00")) = some 1000000) ∧
    (∀ (records : List BudgetRecord)
      (agency budgetType appropId m text : String) (page : Nat)
      (source year : String),
      pyFloat (pyRemoveCommas m) = none →
      handleAppropMatch records agency budgetType appropId m text page
        source year = records ∧
      handleReappropMatch records agency budgetType appropId m text page
        source year = records) := by
  constructor
  · exact ⟨by decide, by decide⟩
  · intro records a b i m t p so y h
    constructor
    · simp [handleAppropMatch, h]
    · simp [handleReappropMatch, h]

/-- Witness for C8: a concrete malformed amount string is skipped by both
handlers. -/
theorem c8_amount_handling_witness :
    pyFloat (pyRemoveCommas ("12a4")) = none ∧
    handleAppropMatch [] ("A") ("B") ("12345") ("12a4") ("t") 1 ("enacted")
      ("2024") = [] ∧
    handleReappropMatch [] ("A") ("B") ("12345") ("12a4") ("t") 1 ("enacted")
      ("2024") = [] := by
  have h : pyFloat (pyRemoveCommas ("12a4")) = none := by decide
  exact ⟨h,
    (c8_amount_handling.2 [] ("A") ("B") ("12345") ("12a4") ("t") 1
      ("enacted") ("2024") h).1,
    (c8_amount_handling.2 [] ("A") ("B") ("12345") ("12a4") ("t") 1
      ("enacted") ("2024") h).2⟩

/-- A page whose extracted text has fewer than three lines is skipped: the
splitter state is unchanged. -/
theorem stepPage_skip_short (i : Nat) (t : String) (st : SplitState)
    (h : (pySplitlinesStr t).length < 3) : stepPage i t st = st := by
  by_cases ht : t = ""
  · simp [stepPage, ht]
  · simp only [stepPage]
    rw [if_neg ht, if_pos h]

/-- A page with enough lines whose agency or computed budget type differs
from the running values flushes the open section and restarts the tracking
state. -/
theorem stepPage_boundary (i : Nat) (t : String) (st : SplitState)
    (h3 : ¬ (pySplitlinesStr t).length < 3)
    (hb : some (pyStrip ((pySplitlinesStr t).getD 1 "")) ≠ st.curAgency ∨
      headerOr (pyStrip ((pySplitlinesStr t).getD 2 "")) st.curBudgetType ≠
        st.curBudgetType) :
    stepPage i t st =
      ⟨(if st.currentSection.isEmpty then st.sections
        else st.sections ++
          [⟨st.curAgency, st.curBudgetType, st.curFiscalYear,
            joinNlStr st.currentSection,
            (i : Int) - st.currentSection.length + 1, (i : Int)⟩]),
       [t],
       some (pyStrip ((pySplitlinesStr t).getD 1 "")),
       headerOr (pyStrip ((pySplitlinesStr t).getD 2 "")) st.curBudgetType,
       fiscalOr (pyStrip ((pySplitlinesStr t).getD 2 "")) st.curFiscalYear⟩ := by
  have ht : t ≠ "" := by
    intro he
    rw [he] at h3
    exact h3 (by decide)
  simp only [stepPage]
  rw [if_neg ht, if_neg h3, if_pos hb]
  simp

/-- A page with enough lines whose agency and computed budget type both
equal the running values only appends its text to the open section. -/
theorem stepPage_same (i : Nat) (t : String) (st : SplitState)
    (h3 : ¬ (pySplitlinesStr t).length < 3)
    (hb : ¬ (some (pyStrip ((pySplitlinesStr t).getD 1 "")) ≠ st.curAgency ∨
      headerOr (pyStrip ((pySplitlinesStr t).getD 2 "")) st.curBudgetType ≠
        st.curBudgetType)) :
    stepPage i t st = { st with currentSection := st.currentSection ++ [t] } := by
  have ht : t ≠ "" := by
    intro he
    rw [he] at h3
    exact h3 (by decide)
  simp only [stepPage]
  rw [if_neg ht, if_neg h3, if_neg hb]

/-- Claim C4: when every page has fewer than three extracted lines, the
splitter returns no sections at all. -/
theorem c4_short_pages_no_sections (pages : List String)
    (h : ∀ p ∈ pages, (pySplitlinesStr p).length < 3) :
    splitBudgetIntoSections pages = [] := by
  have key : ∀ (ps : List String) (i : Nat) (st : SplitState),
      (∀ p ∈ ps, (pySplitlinesStr p).length < 3) →
      splitFoldAux i ps st = st := by
    intro ps
    induction ps with
    | nil => intro i st _; rfl
    | cons p rest ih =>
      intro i st hp
      rw [splitFoldAux, stepPage_skip_short i p st (hp p (by simp))]
      exact ih (i + 1) st (fun q hq => hp q (by simp [hq]))
  unfold splitBudgetIntoSections
  rw [key pages 0 _ h]
  rfl

/-- Witness for C4: two concrete short pages yield no section. -/
theorem c4_short_pages_no_sections_witness :
    splitBudgetIntoSections [("a\nb"), ("")] = [] :=
  c4_short_pages_no_sections _ (by decide)

/-- Claim C5: on a two-page input where both pages have at least three
extracted lines and page 2's agency or computed budget type differs from
page 1's, the splitter yields exactly two sections whose page ranges are
1-1 and 2-2: contiguous and non-overlapping across the document. -/
theorem c5_two_page_boundary (t1 t2 : String)
    (h1 : 3 ≤ (pySplitlinesStr t1).length)
    (h2 : 3 ≤ (pySplitlinesStr t2).length)
    (hdiff :
      pyStrip ((pySplitlinesStr t2).getD 1 "") ≠
        pyStrip ((pySplitlinesStr t1).getD 1 "") ∨
      headerOr (pyStrip ((pySplitlinesStr t2).getD 2 ""))
          (headerOr (pyStrip ((pySplitlinesStr t1).getD 2 "")) none) ≠
        headerOr (pyStrip ((pySplitlinesStr t1).getD 2 "")) none) :
    ∃ s1 s2 : BudgetSection,
      splitBudgetIntoSections [t1, t2] = [s1, s2] ∧
      s1.pageStart = 1 ∧ s1.pageEnd = 1 ∧ s2.pageStart = 2 ∧ s2.pageEnd = 2 := by
  have h1' : ¬ (pySplitlinesStr t1).length < 3 := by omega
  have h2' : ¬ (pySplitlinesStr t2).length < 3 := by omega
  have e1 : stepPage 0 t1 ⟨[], [], none, none, none⟩ =
      ⟨[], [t1],
       some (pyStrip ((pySplitlinesStr t1).getD 1 "")),
       headerOr (pyStrip ((pySplitlinesStr t1).getD 2 "")) none,
       fiscalOr (pyStrip ((pySplitlinesStr t1).getD 2 "")) none⟩ := by
    rw [stepPage_boundary 0 t1 _ h1' (Or.inl (by simp))]
    rfl
  have e2 : stepPage 1 t2
      ⟨[], [t1],
       some (pyStrip ((pySplitlinesStr t1).getD 1 "")),
       headerOr (pyStrip ((pySplitlinesStr t1).getD 2 "")) none,
       fiscalOr (pyStrip ((pySplitlinesStr t1).getD 2 "")) none⟩ =
      ⟨[⟨some (pyStrip ((pySplitlinesStr t1).getD 1 "")),
         headerOr (pyStrip ((pySplitlinesStr t1).getD 2 "")) none,
         fiscalOr (pyStrip ((pySplitlinesStr t1).getD 2 "")) none,
         joinNlStr [t1], 1, 1⟩],
       [t2],
       some (pyStrip ((pySplitlinesStr t2).getD 1 "")),
       headerOr (pyStrip ((pySplitlinesStr t2).getD 2 ""))
         (headerOr (pyStrip ((pySplitlinesStr t1).getD 2 "")) none),
       fiscalOr (pyStrip ((pySplitlinesStr t2).getD 2 ""))
         (fiscalOr (pyStrip ((pySplitlinesStr t1).getD 2 "")) none)⟩ := by
    rw [stepPage_boundary 1 t2 _ h2' ?cond]
    case cond =>
      rcases hdiff with h | h
      · exact Or.inl (by simpa using h)
      · exact Or.inr h
    norm_num
  have s : splitFoldAux 0 [t1, t2] ⟨[], [], none, none, none⟩ =
      ⟨[⟨some (pyStrip ((pySplitlinesStr t1).getD 1 "")),
         headerOr (pyStrip ((pySplitlinesStr t1).getD 2 "")) none,
         fiscalOr (pyStrip ((pySplitlinesStr t1).getD 2 "")) none,
         joinNlStr [t1], 1, 1⟩],
       [t2],
       some (pyStrip ((pySplitlinesStr t2).getD 1 "")),
       headerOr (pyStrip ((pySplitlinesStr t2).getD 2 ""))
         (headerOr (pyStrip ((pySplitlinesStr t1).getD 2 "")) none),
       fiscalOr (pyStrip ((pySplitlinesStr t2).getD 2 ""))
         (fiscalOr (pyStrip ((pySplitlinesStr t1).getD 2 "")) none)⟩ := by
    simp only [splitFoldAux]
    rw [e1, e2]
  refine ⟨⟨some (pyStrip ((pySplitlinesStr t1).getD 1 "")),
      headerOr (pyStrip ((pySplitlinesStr t1).getD 2 "")) none,
      fiscalOr (pyStrip ((pySplitlinesStr t1).getD 2 "")) none,
      joinNlStr [t1], 1, 1⟩,
    ⟨some (pyStrip ((pySplitlinesStr t2).getD 1 "")),
      headerOr (pyStrip ((pySplitlinesStr t2).getD 2 ""))
        (headerOr (pyStrip ((pySplitlinesStr t1).getD 2 "")) none),
      fiscalOr (pyStrip ((pySplitlinesStr t2).getD 2 ""))
        (fiscalOr (pyStrip ((pySplitlinesStr t1).getD 2 "")) none),
      joinNlStr [t2], 2, 2⟩, ?_, rfl, rfl, rfl, rfl⟩
  unfold splitBudgetIntoSections
  rw [s]
  norm_num

/-- Witness for C5: two concrete pages with differing agencies yield the
two contiguous sections. -/
theorem c5_two_page_boundary_witness :
    ∃ s1 s2 : BudgetSection,
      splitBudgetIntoSections
        [("H\nDEPT A\nSTATE OPERATIONS 2024-25"), ("H\nDEPT B\nmisc\nx")] =
        [s1, s2] ∧
      s1.pageStart = 1 ∧ s1.pageEnd = 1 ∧ s2.pageStart = 2 ∧ s2.pageEnd = 2 :=
  c5_two_page_boundary _ _ (by decide) (by decide) (Or.inl (by decide))

/-- Counterexample to claim C3 as stated: on a page whose header lines are
blank (the agency line strips to the empty string and the budget-info line
matches neither header pattern), the splitter does NOT carry the agency
forward: the blank page changes the running agency to the empty string and
by itself opens a new section, so the two-page run produces two sections
instead of one. -/
theorem c3_counterexample :
    pyStrip ((pySplitlinesStr ("x\n\n\nz")).getD 1 "") = "" ∧
    pyStrip ((pySplitlinesStr ("x\n\n\nz")).getD 2 "") = "" ∧
    headerMatchStr (pyStrip ((pySplitlinesStr ("x\n\n\nz")).getD 2 "")) = none ∧
    fiscalSearchStr (pyStrip ((pySplitlinesStr ("x\n\n\nz")).getD 2 "")) = none ∧
    (splitBudgetIntoSections
        [("H\nDEPT A\nSTATE OPERATIONS 2024-25\nbody"), ("x\n\n\nz")]).map
      BudgetSection.agency = [some ("DEPT A"), some ("")] := by
  refine ⟨rfl, rfl, rfl, rfl, ?_⟩
  decide

/-- Claim C3, amended: a page (with at least three lines) whose budget-info
line matches neither the budget-type nor the fiscal-year pattern carries
budget_type and fiscal_year forward unchanged; but the agency is read
verbatim from the page's second line, so the whole tracking state survives
and no section is opened only when that line's stripped text equals the
running agency. -/
theorem c3_sticky_budget_fiscal (i : Nat) (text : String) (st : SplitState)
    (hlen : 3 ≤ (pySplitlinesStr text).length)
    (hh : headerMatchStr (pyStrip ((pySplitlinesStr text).getD 2 "")) = none)
    (hf : fiscalSearchStr (pyStrip ((pySplitlinesStr text).getD 2 "")) = none) :
    (stepPage i text st).curBudgetType = st.curBudgetType ∧
    (stepPage i text st).curFiscalYear = st.curFiscalYear ∧
    (st.curAgency = some (pyStrip ((pySplitlinesStr text).getD 1 "")) →
      stepPage i text st =
        { st with currentSection := st.currentSection ++ [text] }) := by
  have hlen' : ¬ (pySplitlinesStr text).length < 3 := by omega
  have hbt : headerOr (pyStrip ((pySplitlinesStr text).getD 2 ""))
      st.curBudgetType = st.curBudgetType := by
    simp only [headerOr]
    rw [hh]
  have hfy : fiscalOr (pyStrip ((pySplitlinesStr text).getD 2 ""))
      st.curFiscalYear = st.curFiscalYear := by
    simp only [fiscalOr]
    rw [hf]
  by_cases hag :
      some (pyStrip ((pySplitlinesStr text).getD 1 "")) = st.curAgency
  · have hsame := stepPage_same i text st hlen' (by
      push_neg
      exact ⟨hag, hbt⟩)
    rw [hsame]
    exact ⟨rfl, rfl, fun _ => rfl⟩
  · have hstep := stepPage_boundary i text st hlen' (Or.inl hag)
    rw [hstep]
    refine ⟨hbt, hfy, fun hc => absurd hc.symm hag⟩

/-- Witness for the amended C3: a concrete page whose agency line matches
the running agency and whose budget-info line matches no pattern leaves the
tracking state untouched and only appends the page text. -/
theorem c3_sticky_budget_fiscal_witness :
    (stepPage 7 ("x\nA\nzzz")
        ⟨[], [("p")], some ("A"), some ("B"), some ("C")⟩).curBudgetType =
      some ("B") ∧
    (stepPage 7 ("x\nA\nzzz")
        ⟨[], [("p")], some ("A"), some ("B"), some ("C")⟩).curFiscalYear =
      some ("C") ∧
    stepPage 7 ("x\nA\nzzz")
        ⟨[], [("p")], some ("A"), some ("B"), some ("C")⟩ =
      ⟨[], [("p"), ("x\nA\nzzz")], some ("A"), some ("B"), some ("C")⟩ := by
  have h := c3_sticky_budget_fiscal 7 ("x\nA\nzzz")
    ⟨[], [("p")], some ("A"), some ("B"), some ("C")⟩
    (by decide) (by decide) (by decide)
  exact ⟨h.1, h.2.1, h.2.2 (by decide)⟩

/-- Folding the appropriation scan over lines with no appropriation match
appends their stripped text to the open block, threads the sticky fund type,
and emits no record. -/
theorem apStep_nomatch_foldl (ls : List String) :
    ∀ st : ApState, (∀ x ∈ ls, appropSearchStr (pyStrip x) = none) →
      ls.foldl apStep st =
        ⟨st.chunk ++ ls.map pyStrip,
         ls.foldl
           (fun f x =>
             match fundSearchStr (pyStrip x) with
             | some g => g
             | none => f) st.fundType,
         st.records⟩ := by
  induction ls with
  | nil => intro st _; simp
  | cons x rest ih =>
    intro st h
    have hx := h x (by simp)
    have hstep : apStep st x =
        ⟨st.chunk ++ [pyStrip x],
         (match fundSearchStr (pyStrip x) with
          | some g => g
          | none => st.fundType),
         st.records⟩ := by
      simp only [apStep]
      rw [hx]
    rw [List.foldl_cons, hstep, ih _ (fun y hy => h y (by simp [hy]))]
    simp

/-- Claim C2, amended: when the appropriation pattern matches on exactly one
line and that line is not the first line of the text, the parser yields
exactly one High Confidence record bearing the matched code and amount
(whose text is the block of lines before the match) followed by exactly one
trailing Needs Review record with code and amount N/A (whose text starts at
the matching line). -/
theorem c2_single_match_records (content : String) (pre post : List String)
    (l code whole : String)
    (hsplit : pySplitNlStr content = pre ++ l :: post)
    (hpre : pre ≠ [])
    (hprem : ∀ x ∈ pre, appropSearchStr (pyStrip x) = none)
    (hl : appropSearchStr (pyStrip l) = some (code, whole))
    (hpost : ∀ x ∈ post, appropSearchStr (pyStrip x) = none) :
    ∃ ft1 ft2 : String,
      processAppropriations content =
        [⟨ft1, code, joinNlStr (pre.map pyStrip), whole, ("High Confidence")⟩,
         ⟨ft2, ("N/A"), joinNlStr ((l :: post).map pyStrip), ("N/A"),
           ("Needs Review")⟩] := by
  refine ⟨(match fundSearchStr (pyStrip l) with
    | some g => g
    | none =>
      pre.foldl
        (fun f x =>
          match fundSearchStr (pyStrip x) with
          | some g => g
          | none => f) ("Unknown")),
    post.foldl
      (fun f x =>
        match fundSearchStr (pyStrip x) with
        | some g => g
        | none => f)
      (match fundSearchStr (pyStrip l) with
       | some g => g
       | none =>
         pre.foldl
           (fun f x =>
             match fundSearchStr (pyStrip x) with
             | some g => g
             | none => f) ("Unknown")), ?_⟩
  unfold processAppropriations
  rw [hsplit, List.foldl_append,
    apStep_nomatch_foldl pre ⟨[], ("Unknown"), []⟩ hprem]
  simp only [List.nil_append]
  rw [List.foldl_cons]
  have hne : (pre.map pyStrip).isEmpty = false := by
    cases pre with
    | nil => exact absurd rfl hpre
    | cons a t => rfl
  have hstep : apStep
      ⟨pre.map pyStrip,
       pre.foldl
         (fun f x =>
           match fundSearchStr (pyStrip x) with
           | some g => g
           | none => f) ("Unknown"),
       []⟩ l =
      ⟨[pyStrip l],
       (match fundSearchStr (pyStrip l) with
        | some g => g
        | none =>
          pre.foldl
            (fun f x =>
              match fundSearchStr (pyStrip x) with
              | some g => g
              | none => f) ("Unknown")),
       [⟨(match fundSearchStr (pyStrip l) with
          | some g => g
          | none =>
            pre.foldl
              (fun f x =>
                match fundSearchStr (pyStrip x) with
                | some g => g
                | none => f) ("Unknown")),
         code, joinNlStr (pre.map pyStrip), whole, ("High Confidence")⟩]⟩ := by
    simp only [apStep]
    rw [hl, hne]
    simp
  rw [hstep, apStep_nomatch_foldl post _ hpost]
  simp

/-- Witness for the amended C2: a concrete three-line text with the single
match on the middle line. -/
theorem c2_single_match_records_witness :
    ∃ ft1 ft2 : String,
      processAppropriations ("intro\n(12345) ... $100\ntrailing") =
        [⟨ft1, ("12345"), joinNlStr ([("intro")].map pyStrip),
          ("(12345) ... $100"), ("High Confidence")⟩,
         ⟨ft2, ("N/A"),
          joinNlStr ([("(12345) ... $100"), ("trailing")].map pyStrip),
          ("N/A"), ("Needs Review")⟩] :=
  c2_single_match_records ("intro\n(12345) ... $100\ntrailing")
    [("intro")] [("trailing")] ("(12345) ... $100") ("12345")
    ("(12345) ... $100") (by decide) (by decide) (by decide) (by decide)
    (by decide)

/-- Counterexample to claim C2 as stated: when the single matching line is
the first line, no block precedes it, so no High Confidence record is
emitted at all; the parser returns only the Needs Review record. -/
theorem c2_counterexample :
    (pySplitNlStr ("(12345) ... $100")).map
      (fun x => (appropSearchStr (pyStrip x)).isSome) = [true] ∧
    (processAppropriations ("(12345) ... $100")).map
      AppropRecord.confidenceFlag = [("Needs Review")] := by
  exact ⟨by decide, by decide⟩

/-- Folding the reappropriation scan over lines with no parenthesized
re-dollar marker appends their stripped text to the open block and emits no
record. -/
theorem rpStep_nomatch_foldl (ls : List String) :
    ∀ st : RpState, (∀ x ∈ ls, reParenFound (pyStrip x) = false) →
      ls.foldl rpStep st = ⟨st.chunk ++ ls.map pyStrip, st.records⟩ := by
  induction ls with
  | nil => intro st _; simp
  | cons x rest ih =>
    intro st h
    have hx := h x (by simp)
    have hstep : rpStep st x = ⟨st.chunk ++ [pyStrip x], st.records⟩ := by
      simp only [rpStep]
      rw [hx]
      simp
    rw [List.foldl_cons, hstep, ih _ (fun y hy => h y (by simp [hy]))]
    simp

/-- Every split has at least one piece. -/
theorem pySplitNl_ne_nil (l : List Char) : pySplitNl l ≠ [] := by
  induction l with
  | nil => simp [pySplitNl]
  | cons c rest ih =>
    simp only [pySplitNl]
    by_cases hc : c = '\n'
    · simp [hc]
    · rw [if_neg hc]
      cases h : pySplitNl rest with
      | nil => simp
      | cons a t => simp

/-- Claim C6, amended: on text with no parenthesized re-dollar marker the
reappropriation parser returns exactly one record, whose text is the
newline-join of the stripped lines of the input (equal to the input exactly
when no line carries surrounding whitespace). -/
theorem c6_no_marker_single_record (content : String)
    (h : ∀ x ∈ pySplitNlStr content, reParenFound (pyStrip x) = false) :
    processReappropriations content =
      [joinNlStr ((pySplitNlStr content).map pyStrip)] := by
  unfold processReappropriations
  rw [rpStep_nomatch_foldl _ ⟨[], []⟩ h]
  have hne : (((pySplitNlStr content).map pyStrip)).isEmpty = false := by
    have hbase := pySplitNl_ne_nil content.data
    cases hc : pySplitNl content.data with
    | nil => exact absurd hc hbase
    | cons a t => simp [pySplitNlStr, hc]
  simp only [List.nil_append]
  rw [hne]
  simp

/-- Witness for the amended C6: concrete marker-free text yields its single
record. -/
theorem c6_no_marker_single_record_witness :
    processReappropriations ("hello\nworld") =
      [joinNlStr ((pySplitNlStr ("hello\nworld")).map pyStrip)] :=
  c6_no_marker_single_record ("hello\nworld") (by decide)

/-- Counterexample to claim C6 as stated: lines are stripped before being
accumulated, so on marker-free input with surrounding whitespace the single
record's text differs from the entire input. -/
theorem c6_counterexample :
    (∀ x ∈ pySplitNlStr (" a"), reParenFound (pyStrip x) = false) ∧
    processReappropriations (" a") = [("a")] ∧
    processReappropriations (" a") ≠ [(" a")] := by
  exact ⟨by decide, by decide, by decide⟩

/-- Before any chapter citation has been seen, the chunk scan drops every
line: folding citation-free lines from a non-capturing state is the
identity. -/
theorem chunkStep_noncapturing (ls : List String) :
    ∀ st : ChunkState, st.capturing = false →
      (∀ x ∈ ls, chapterSearchStr (pyStrip x) = none) →
      ls.foldl chunkStep st = st := by
  induction ls with
  | nil => intro st _ _; rfl
  | cons x rest ih =>
    intro st hcap h
    have hx := h x (by simp)
    have hstep : chunkStep st x = st := by
      simp only [chunkStep]
      rw [hx]
      simp [hcap]
    rw [List.foldl_cons, hstep]
    exact ih st hcap (fun y hy => h y (by simp [hy]))

/-- Claim C9: extract_reappropriation_chunks ignores everything before the
first chapter-citation line: prefixing citation-free lines (whatever
re-dollar markers they carry) never changes the output, and citation-free
input yields no records at all. -/
theorem c9_drop_before_citation (pre suffix : List String)
    (h : ∀ x ∈ pre, chapterSearchStr (pyStrip x) = none) :
    extractReappropriationChunks (pre ++ suffix) =
      extractReappropriationChunks suffix ∧
    extractReappropriationChunks pre = [] := by
  constructor
  · unfold extractReappropriationChunks
    rw [List.foldl_append, chunkStep_noncapturing pre _ rfl h]
  · unfold extractReappropriationChunks
    rw [chunkStep_noncapturing pre _ rfl h]

/-- Witness for C9: a dropped leading line containing a re-dollar marker. -/
theorem c9_drop_before_citation_witness :
    extractReappropriationChunks
        ([("junk (re. $100)")] ++
          [("By chapter 53, section 1, of the laws of 1998"),
           ("x (re. $5)")]) =
      extractReappropriationChunks
        [("By chapter 53, section 1, of the laws of 1998"),
         ("x (re. $5)")] ∧
    extractReappropriationChunks [("junk (re. $100)")] = [] :=
  c9_drop_before_citation _ _ (by decide)

/-- Dropping a prefix of a list keeps members of the result members of the
whole. -/
theorem mem_of_mem_dropWhile {α : Type} {c : α} {p : α → Bool} :
    ∀ {l : List α}, c ∈ l.dropWhile p → c ∈ l := by
  intro l
  induction l with
  | nil => intro h; simp at h
  | cons a t ih =>
    intro h
    rw [List.dropWhile_cons] at h
    by_cases hp : p a = true
    · rw [if_pos hp] at h
      exact List.mem_cons_of_mem _ (ih h)
    · rw [if_neg hp] at h
      exact h

/-- Characters of a stripped string come from the original string. -/
theorem mem_of_mem_pyStripChars {c : Char} {l : List Char}
    (h : c ∈ pyStripChars l) : c ∈ l := by
  unfold pyStripChars at h
  rw [List.mem_reverse] at h
  have h2 := mem_of_mem_dropWhile h
  rw [List.mem_reverse] at h2
  exact mem_of_mem_dropWhile h2

/-- The citation match is a substring of the line: its characters occur in
the searched list. -/
theorem mem_of_chapterSearchChars {g : List Char} :
    ∀ {l : List Char}, chapterSearchChars l = some g → ∀ c ∈ g, c ∈ l := by
  intro l
  induction l with
  | nil => intro h; simp [chapterSearchChars] at h
  | cons a t ih =>
    intro h c hc
    rw [chapterSearchChars] at h
    cases hm : chapterMatchAt (a :: t) with
    | some n =>
      rw [hm] at h
      simp only [Option.some.injEq] at h
      subst h
      exact List.take_subset n _ hc
    | none =>
      rw [hm] at h
      exact List.mem_cons_of_mem _ (ih h c hc)

/-- The last default-valued element of a list ending in a is a. -/
theorem getLastD_append_singleton {α : Type} (l : List α) (a : α) :
    ∀ d : α, (l ++ [a]).getLastD d = a := by
  induction l with
  | nil => intro d; rfl
  | cons x t ih =>
    intro d
    rw [List.cons_append, List.getLastD_cons]
    exact ih x

/-- Splitting after prepending newline-free characters prepends them onto
the first piece. -/
theorem pySplitNl_append_free (p : List Char) (hp : ('\n') ∉ p)
    (l : List Char) :
    pySplitNl (p ++ l) = prependHead p (pySplitNl l) := by
  induction p with
  | nil =>
    cases h : pySplitNl l with
    | nil => exact absurd h (pySplitNl_ne_nil l)
    | cons a t => simp [prependHead, h]
  | cons c cs ih =>
    have hc : c ≠ '\n' := by
      intro he
      exact hp (by simp [he])
    have hcs : ('\n') ∉ cs := fun hm => hp (by simp [hm])
    simp only [List.cons_append, pySplitNl]
    rw [if_neg hc]
    simp only [List.append_eq]
    rw [ih hcs]
    cases h : pySplitNl l with
    | nil => exact absurd h (pySplitNl_ne_nil l)
    | cons a t => simp [prependHead]

/-- Splitting the newline-join of newline-free pieces recovers the
pieces. -/
theorem pySplitNl_joinNl :
    ∀ chunks : List (List Char), chunks ≠ [] →
      (∀ x ∈ chunks, ('\n') ∉ x) → pySplitNl (joinNl chunks) = chunks := by
  intro chunks
  induction chunks with
  | nil => intro h; exact absurd rfl h
  | cons c rest ih =>
    intro _ hfree
    cases rest with
    | nil =>
      show pySplitNl (joinNl [c]) = [c]
      have hc := hfree c (by simp)
      have := pySplitNl_append_free c hc []
      simpa [joinNl, prependHead, pySplitNl] using this
    | cons d rest2 =>
      show pySplitNl (c ++ '\n' :: joinNl (d :: rest2)) = c :: d :: rest2
      rw [pySplitNl_append_free c (hfree c (by simp))]
      rw [show pySplitNl ('\n' :: joinNl (d :: rest2)) =
        [] :: pySplitNl (joinNl (d :: rest2)) from by simp [pySplitNl]]
      rw [ih (by simp) (fun y hy => hfree y (by simp [hy]))]
      simp [prependHead]

/-- getLastD commutes with taking character data. -/
theorem getLastD_map_data :
    ∀ (ls : List String) (d : String),
      (ls.map String.data).getLastD d.data = (ls.getLastD d).data := by
  intro ls
  induction ls with
  | nil => intro d; rfl
  | cons x t ih =>
    intro d
    rw [List.map_cons, List.getLastD_cons, List.getLastD_cons]
    exact ih x

/-- The last line of the newline-join of newline-free pieces is the last
piece. -/
theorem lastLineStr_joinNlStr (ls : List String) (hne : ls ≠ [])
    (hfree : ∀ x ∈ ls, ('\n') ∉ x.data) :
    lastLineStr (joinNlStr ls) = ls.getLastD ("") := by
  show String.mk ((pySplitNl (joinNl (ls.map String.data))).getLastD []) = _
  rw [pySplitNl_joinNl (ls.map String.data) (by simpa using hne) (by
    intro y hy
    rw [List.mem_map] at hy
    obtain ⟨x, hx, rfl⟩ := hy
    exact hfree x hx)]
  rw [show ([] : List Char) = ("").data from rfl, getLastD_map_data]

/-- One line of the chunk scan preserves the invariant. -/
theorem chunkStep_preserves_inv (st : ChunkState) (x : String)
    (hx : ('\n') ∉ x.data) (h : chunkInv st) : chunkInv (chunkStep st x) := by
  obtain ⟨hrec, hchunk, hhdr⟩ := h
  have hline : ('\n') ∉ (pyStrip x).data := fun hm =>
    hx (mem_of_mem_pyStripChars hm)
  simp only [chunkStep]
  cases hcs : chapterSearchStr (pyStrip x) with
  | some grp =>
    refine ⟨hrec, ?_, ?_⟩
    · intro y hy
      rw [List.mem_singleton] at hy
      subst hy
      exact hline
    · obtain ⟨g, hg, rfl⟩ :
          ∃ g, chapterSearchChars (pyStrip x).data = some g ∧
            grp = String.mk g := by
        unfold chapterSearchStr at hcs
        cases hgc : chapterSearchChars (pyStrip x).data with
        | none => rw [hgc] at hcs; simp at hcs
        | some g =>
          rw [hgc] at hcs
          have h2 : some (String.mk g) = some grp := hcs
          exact ⟨g, rfl, (Option.some.inj h2).symm⟩
      intro hm
      exact hline (mem_of_chapterSearchChars hg '\n' hm)
  | none =>
    dsimp only
    by_cases hcap : st.capturing
    · rw [if_pos hcap]
      by_cases hre : reDollarFound (pyStrip x)
      · rw [if_pos hre]
        have hchunk2 : ∀ y ∈ st.currentChunk ++ [pyStrip x], ('\n') ∉ y.data := by
          intro y hy
          rw [List.mem_append, List.mem_singleton] at hy
          rcases hy with hy | rfl
          · exact hchunk y hy
          · exact hline
        split
        next hbw =>
          refine ⟨?_, ?_, hhdr⟩
          · intro r hr
            rw [List.mem_append, List.mem_singleton] at hr
            rcases hr with hr | rfl
            · exact hrec r hr
            · rw [lastLineStr_joinNlStr _ (by simp) hchunk2,
                getLastD_append_singleton]
              exact hre
          · intro y hy
            rw [List.mem_singleton] at hy
            subst hy
            exact hhdr
        next hbw =>
          refine ⟨?_, ?_, hhdr⟩
          · intro r hr
            rw [List.mem_append, List.mem_singleton] at hr
            rcases hr with hr | rfl
            · exact hrec r hr
            · have hchunk3 :
                  ∀ y ∈ st.chapterHeader :: (st.currentChunk ++ [pyStrip x]),
                    ('\n') ∉ y.data := by
                intro y hy
                rw [List.mem_cons] at hy
                rcases hy with rfl | hy
                · exact hhdr
                · exact hchunk2 y hy
              rw [lastLineStr_joinNlStr _ (by simp) hchunk3,
                show st.chapterHeader :: (st.currentChunk ++ [pyStrip x]) =
                  (st.chapterHeader :: st.currentChunk) ++ [pyStrip x] from rfl,
                getLastD_append_singleton]
              exact hre
          · intro y hy
            rw [List.mem_singleton] at hy
            subst hy
            exact hhdr
      · rw [if_neg hre]
        refine ⟨hrec, ?_, hhdr⟩
        intro y hy
        rw [List.mem_append, List.mem_singleton] at hy
        rcases hy with hy | rfl
        · exact hchunk y hy
        · exact hline
    · rw [if_neg hcap]
      exact ⟨hrec, hchunk, hhdr⟩

/-- The invariant holds along the whole scan. -/
theorem foldl_chunkStep_inv (ls : List String) :
    ∀ st : ChunkState, (∀ x ∈ ls, ('\n') ∉ x.data) → chunkInv st →
      chunkInv (ls.foldl chunkStep st) := by
  induction ls with
  | nil => intro st _ h; exact h
  | cons x rest ih =>
    intro st hl h
    rw [List.foldl_cons]
    exact ih _ (fun y hy => hl y (by simp [hy]))
      (chunkStep_preserves_inv st x (hl x (by simp)) h)

/-- Claim C10: every record returned by extract_reappropriation_chunks ends
with a line containing the re-dollar pattern: records are appended only at
the moment a matching line is processed, and that line is the last line of
the record's text. -/
theorem c10_record_ends_with_marker (allLines : List String)
    (hfree : ∀ x ∈ allLines, ('\n') ∉ x.data) :
    ∀ r ∈ extractReappropriationChunks allLines,
      reDollarFound (lastLineStr r) = true := by
  have h := foldl_chunkStep_inv allLines ⟨[], [], false, ""⟩ hfree
    (by exact ⟨by simp, by simp, by simp⟩)
  exact h.1

/-- Witness for C10: the record extracted from a concrete citation block
ends with its re-dollar line. -/
theorem c10_record_ends_with_marker_witness :
    reDollarFound (lastLineStr
      ("By chapter 53, section 1, of the laws of 1998\nstuff\n26 (15503) ... 1,000,000 (re. $796,000)")) = true :=
  c10_record_ends_with_marker
    [("By chapter 53, section 1, of the laws of 1998"), ("stuff"),
     ("26 (15503) ... 1,000,000 (re. $796,000)"), ("more")]
    (by decide) _ (by decide)

end Reapprop
